import Mathlib

set_option maxRecDepth 10000

/-!
# Verification of the photography-portfolio-builder image pipeline

A shallow embedding, in Lean 4, of the content-addressed image-variant
generator (`internal/processing/processor.go`), the grid-placement validator
(`internal/generator/generator.go`, `validateLayout`) and the layout packing
algorithms (`internal/layouts/layout.go`) of the repository, together with
theorems settling the specification claims about them.

Conventions of the embedding:
* Go byte slices are `List Nat` (each entry < 256).
* Go `int` is `Int`; Go `float64` arithmetic is modelled by exact rational
  (`ℚ`) arithmetic, and the Go conversion `int(f)` (truncation toward zero)
  by `truncQ`.
* The filesystem behind `ImageSource.Open` / `ImageDestination` /
  `GetImageDimensions` is passed in explicitly as data (an `Option` for a
  source's readable bytes, boolean oracles for destination existence/write
  success, a `String → Option (Int × Int)` for decodable image dimensions).
-/

namespace PortfolioBuilder

/-- Truncation of a rational toward zero, the behaviour of Go's `int(f)`
conversion for a `float64` value `f`. -/
def truncQ (q : ℚ) : Int := if q < 0 then -(⌊-q⌋) else ⌊q⌋

theorem truncQ_le (q : ℚ) (h : 0 ≤ q) : (truncQ q : ℚ) ≤ q := by
  unfold truncQ
  rw [if_neg (by exact not_lt.mpr h)]
  exact_mod_cast Int.floor_le q

theorem truncQ_nonneg (q : ℚ) (h : 0 ≤ q) : 0 ≤ truncQ q := by
  unfold truncQ
  rw [if_neg (by exact not_lt.mpr h)]
  exact Int.floor_nonneg.mpr h

theorem truncQ_gt (q : ℚ) (h : 0 ≤ q) : q - 1 < (truncQ q : ℚ) := by
  unfold truncQ
  rw [if_neg (by exact not_lt.mpr h)]
  have := Int.sub_one_lt_floor q
  exact_mod_cast this

/-! ## SHA-256 over byte lists

A direct embedding of the SHA-256 function applied by
`Processor.ComputeHash` (`crypto/sha256` in Go); bytes are naturals < 256,
32-bit words are naturals reduced mod `2^32`. -/

/-- Reduce a natural to a 32-bit word. -/
def w32 (n : Nat) : Nat := n % 4294967296

/-- Right rotation of a 32-bit word by `n` bits. -/
def rotr32 (n x : Nat) : Nat := w32 ((x >>> n) ||| (x <<< (32 - n)))

/-- Bitwise complement of a 32-bit word. -/
def not32 (x : Nat) : Nat := 4294967295 - x

def shaCh (x y z : Nat) : Nat := (x &&& y) ^^^ (not32 x &&& z)

def shaMaj (x y z : Nat) : Nat := (x &&& y) ^^^ (x &&& z) ^^^ (y &&& z)

def bigSigma0 (x : Nat) : Nat := rotr32 2 x ^^^ rotr32 13 x ^^^ rotr32 22 x

def bigSigma1 (x : Nat) : Nat := rotr32 6 x ^^^ rotr32 11 x ^^^ rotr32 25 x

def smallSigma0 (x : Nat) : Nat := rotr32 7 x ^^^ rotr32 18 x ^^^ (x >>> 3)

def smallSigma1 (x : Nat) : Nat := rotr32 17 x ^^^ rotr32 19 x ^^^ (x >>> 10)

/-- The 64 SHA-256 round constants. -/
def shaK : List Nat :=
  [1116352408, 1899447441, 3049323471, 3921009573,
   961987163, 1508970993, 2453635748, 2870763221,
   3624381080, 310598401, 607225278, 1426881987,
   1925078388, 2162078206, 2614888103, 3248222580,
   3835390401, 4022224774, 264347078, 604807628,
   770255983, 1249150122, 1555081692, 1996064986,
   2554220882, 2821834349, 2952996808, 3210313671,
   3336571891, 3584528711, 113926993, 338241895,
   666307205, 773529912, 1294757372, 1396182291,
   1695183700, 1986661051, 2177026350, 2456956037,
   2730485921, 2820302411, 3259730800, 3345764771,
   3516065817, 3600352804, 4094571909, 275423344,
   430227734, 506948616, 659060556, 883997877,
   958139571, 1322822218, 1537002063, 1747873779,
   1955562222, 2024104815, 2227730452, 2361852424,
   2428436474, 2756734187, 3204031479, 3329325298]

/-- The SHA-256 initial hash value. -/
def shaH0 : List Nat :=
  [1779033703, 3144134277, 1013904242, 2773480762,
   1359893119, 2600822924, 528734635, 1541459225]

/-- Big-endian byte encoding of a natural into `k` bytes. -/
def toBytesBE : Nat → Nat → List Nat
  | 0, _ => []
  | k + 1, n => toBytesBE k (n / 256) ++ [n % 256]

/-- SHA-256 message padding: append `0x80`, zero bytes, and the 64-bit
big-endian bit length, reaching a multiple of 64 bytes. -/
def padMessage (msg : List Nat) : List Nat :=
  let padZeros := (55 + 64 - msg.length % 64) % 64
  msg ++ [128] ++ List.replicate padZeros 0 ++ toBytesBE 8 (8 * msg.length)

/-- Group a byte list into big-endian 32-bit words. -/
def chunkWords : List Nat → List Nat
  | b0 :: b1 :: b2 :: b3 :: rest =>
    (((b0 * 256 + b1) * 256 + b2) * 256 + b3) :: chunkWords rest
  | _ => []

/-- Split a byte list into blocks of 64 bytes (`fuel` bounds the recursion
structurally; with `fuel = bs.length` every block is emitted, since each
step consumes at least one byte). -/
def splitBlocksAux : Nat → List Nat → List (List Nat)
  | 0, _ => []
  | _, [] => []
  | fuel + 1, b :: rest => (b :: rest.take 63) :: splitBlocksAux fuel (rest.drop 63)

/-- Split a byte list into blocks of 64 bytes. -/
def splitBlocks (bs : List Nat) : List (List Nat) :=
  splitBlocksAux bs.length bs

/-- Extend the 16 message-schedule words by `k` further words. -/
def extendWords (w : List Nat) : Nat → List Nat
  | 0 => w
  | k + 1 =>
    let w := extendWords w k
    let i := w.length
    w ++ [w32 (smallSigma1 (w.getD (i - 2) 0) + w.getD (i - 7) 0 +
               smallSigma0 (w.getD (i - 15) 0) + w.getD (i - 16) 0)]

/-- One SHA-256 compression round. -/
def shaRound (st : Nat × Nat × Nat × Nat × Nat × Nat × Nat × Nat) (kw : Nat × Nat) :
    Nat × Nat × Nat × Nat × Nat × Nat × Nat × Nat :=
  let (a, b, c, d, e, f, g, h) := st
  let t1 := w32 (h + bigSigma1 e + shaCh e f g + kw.1 + kw.2)
  let t2 := w32 (bigSigma0 a + shaMaj a b c)
  (w32 (t1 + t2), a, b, c, w32 (d + t1), e, f, g)

/-- SHA-256 compression of a single 64-byte block into the running hash. -/
def compressBlock (hs : List Nat) (block : List Nat) : List Nat :=
  let ws := extendWords (chunkWords block) 48
  let h0 := hs.getD 0 0
  let h1 := hs.getD 1 0
  let h2 := hs.getD 2 0
  let h3 := hs.getD 3 0
  let h4 := hs.getD 4 0
  let h5 := hs.getD 5 0
  let h6 := hs.getD 6 0
  let h7 := hs.getD 7 0
  let fin := (shaK.zip ws).foldl shaRound (h0, h1, h2, h3, h4, h5, h6, h7)
  [w32 (h0 + fin.1), w32 (h1 + fin.2.1), w32 (h2 + fin.2.2.1),
   w32 (h3 + fin.2.2.2.1), w32 (h4 + fin.2.2.2.2.1),
   w32 (h5 + fin.2.2.2.2.2.1), w32 (h6 + fin.2.2.2.2.2.2.1),
   w32 (h7 + fin.2.2.2.2.2.2.2)]

/-- SHA-256 digest (32 bytes) of a byte list. -/
def sha256 (msg : List Nat) : List Nat :=
  (((splitBlocks (padMessage msg)).foldl compressBlock shaH0).map
    (toBytesBE 4)).flatten

/-- A lowercase hexadecimal digit. -/
def hexDigit (n : Nat) : Char := "0123456789abcdef".toList.getD n '0'

/-- Lowercase hexadecimal encoding of a byte list, the behaviour of Go's
`hex.EncodeToString`. -/
def hexEncode (bs : List Nat) : String :=
  String.mk ((bs.map (fun b => [hexDigit (b / 16), hexDigit (b % 16)])).flatten)

/-! ## Content-addressed variant generator
(`internal/processing/processor.go`) -/

/-- The `ProcessConfig` structure of `processor.go`. -/
structure ProcessConfig where
  widths : List Int
  quality : Int
  force : Bool
  generateThumbnails : Bool
  thumbnailWidth : Int
deriving DecidableEq, Repr

/-- The `Processor` structure of `processor.go`. -/
structure Processor where
  config : ProcessConfig
deriving DecidableEq, Repr

/-- The `NewProcessor` constructor: fills in default widths, quality and thumbnail width. -/
def newProcessor (config : ProcessConfig) : Processor :=
  let config :=
    if config.widths = [] then { config with widths := [480, 800, 1200, 1920] }
    else config
  let config := if config.quality = 0 then { config with quality := 80 } else config
  let config :=
    if config.generateThumbnails = true ∧ config.thumbnailWidth = 0 then
      { config with thumbnailWidth := 300 }
    else config
  { config := config }

/-- The `ImageSource` interface: a display name plus the bytes obtained by
`Open`-ing and reading the source (`none` when opening/reading fails). -/
structure ImageSource where
  name : String
  contents : Option (List Nat)

/-- The `ImageDestination` interface: `existsCheck` models `Exists(filename)`
and `createOK` models whether `Create(filename)` followed by the WebP encode
succeeds. -/
structure ImageDestination where
  existsCheck : String → Bool
  createOK : String → Bool

/-- The `Processor.ComputeHash` method: SHA-256 over the full content, hex encoded. -/
def computeHash (src : ImageSource) : Except String String :=
  match src.contents with
  | none => .error "failed to open source for hashing"
  | some bs => .ok (hexEncode (sha256 bs))

/-- The `photoDir := hash[:12]` computation of `ProcessImage`. -/
def photoDirOf (hash : String) : String := hash.take 12

/-- The variant filename `fmt.Sprintf("%s-%dw.webp", hash[:12], width)`. -/
def variantFilename (hashID : String) (width : Int) : String :=
  hashID ++ "-" ++ toString width ++ "w.webp"

/-- The thumbnail filename `fmt.Sprintf("thumb-%s.webp", hash[:12])`. -/
def thumbFilename (hashID : String) : String := "thumb-" ++ hashID ++ ".webp"

/-- The `filepath.Join` operation for the dir/file shapes used by `ProcessImage`. -/
def joinPath (dir file : String) : String := dir ++ "/" ++ file

/-- The variant-existence loop of `ProcessImage` step 2 (`break` on the first
missing file is `List.all`). -/
def allVariantsExist (cfg : ProcessConfig) (dst : ImageDestination)
    (photoDir : String) : Bool :=
  cfg.widths.all fun width =>
    dst.existsCheck (joinPath photoDir (variantFilename photoDir width))

/-- The full skip check of `ProcessImage` step 2: all variants and (when
thumbnails are enabled) the thumbnail already exist. -/
def skipCheck (cfg : ProcessConfig) (dst : ImageDestination)
    (photoDir : String) : Bool :=
  allVariantsExist cfg dst photoDir &&
    (if cfg.generateThumbnails then dst.existsCheck (thumbFilename photoDir)
     else true)

/-- One file written through the destination: its name and the pixel
dimensions it was resized to (`imaging.Resize` returns an image of exactly
the requested dimensions). -/
structure WrittenVariant where
  filename : String
  width : Int
  height : Int
deriving DecidableEq, Repr

/-- Observable outcome of `ProcessImage`: the returned error (if any), how
many times `image.Decode` was invoked, and the files written through the
destination, in order. -/
structure ProcessOutcome where
  result : Except String Unit
  decodes : Nat
  writes : List WrittenVariant
deriving Repr

/-- Height calculation of `ProcessImage` step 4/5:
`ratio := float64(Dy)/float64(Dx); height := int(float64(width)*ratio)`. -/
def variantHeight (dims : Int × Int) (width : Int) : Int :=
  truncQ ((width : ℚ) * ((dims.2 : ℚ) / (dims.1 : ℚ)))

/-- The variant loop of `ProcessImage` step 4: resize and save each width in
order, stopping at the first failed write; returns the files written and the
error, if any. -/
def saveVariants (dst : ImageDestination) (photoDir : String)
    (dims : Int × Int) : List Int → List WrittenVariant × Option String
  | [] => ([], none)
  | width :: rest =>
    let filename := joinPath photoDir (variantFilename photoDir width)
    if dst.createOK filename then
      let (ws, err) := saveVariants dst photoDir dims rest
      ({ filename := filename, width := width,
         height := variantHeight dims width } :: ws, err)
    else ([], some ("failed to save variant " ++ filename))

/-- The `Processor.ProcessImage` method: hash, skip-if-all-exist, decode, resize and
save variants, then the thumbnail. `decodeFn` stands for `image.Decode`,
returning the decoded image's `Bounds().Dx()/Dy()`. -/
def processImage (p : Processor) (decodeFn : List Nat → Option (Int × Int))
    (src : ImageSource) (dst : ImageDestination) : ProcessOutcome :=
  match computeHash src with
  | .error e => { result := .error e, decodes := 0, writes := [] }
  | .ok hash =>
    let photoDir := photoDirOf hash
    if p.config.force = false ∧ skipCheck p.config dst photoDir = true then
      { result := .ok (), decodes := 0, writes := [] }
    else
      match src.contents with
      | none =>
        { result := .error "failed to open source for decoding",
          decodes := 0, writes := [] }
      | some bs =>
        match decodeFn bs with
        | none =>
          { result := .error "failed to decode image", decodes := 1, writes := [] }
        | some dims =>
          match saveVariants dst photoDir dims p.config.widths with
          | (ws, some e) => { result := .error e, decodes := 1, writes := ws }
          | (ws, none) =>
            if p.config.generateThumbnails then
              let fn := thumbFilename photoDir
              if dst.createOK fn then
                { result := .ok (), decodes := 1,
                  writes := ws ++
                    [{ filename := fn, width := p.config.thumbnailWidth,
                       height := variantHeight dims p.config.thumbnailWidth }] }
              else
                { result := .error ("failed to save thumbnail " ++ fn),
                  decodes := 1, writes := ws }
            else { result := .ok (), decodes := 1, writes := ws }

/-! ## Grid placement model and validator
(`internal/generator/generator.go`, `validateLayout`;
types from `internal/content/project.go`) -/

/-- The `content.GridPosition` structure: 1-based inclusive rectangle coordinates. -/
structure GridPosition where
  topLeftX : Int
  topLeftY : Int
  bottomRightX : Int
  bottomRightY : Int
deriving DecidableEq, Repr

/-- The `content.PhotoPlacement` structure. -/
structure PhotoPlacement where
  filename : String
  position : GridPosition
deriving DecidableEq, Repr

/-- The `content.LayoutConfig` structure. -/
structure LayoutConfig where
  gridWidth : Int
  placements : List PhotoPlacement
  mobileGridWidth : Int
  mobilePlacements : List PhotoPlacement
deriving DecidableEq, Repr

/-- The errors `validateLayout` can return, one constructor per
`fmt.Errorf` site, carrying exactly the formatted arguments. `mobile`
distinguishes the mobile-placement loop's messages from the desktop ones;
the occupancy-map key string `"x,y"` is carried as the pair `(x, y)`. -/
inductive LayoutError where
  | nilLayout
  | gridWidthNotPositive
  | topLeftTooSmall (mobile : Bool) (index : Nat) (filename : String)
  | bottomRightBeforeTopLeft (mobile : Bool) (index : Nat) (filename : String)
  | beyondGridWidth (mobile : Bool) (index : Nat) (filename : String)
      (gridWidth : Int) (bottomRightX : Int)
  | overlap (mobile : Bool) (index : Nat) (filename : String)
      (other : Nat) (otherFilename : String) (cell : Int × Int)
deriving DecidableEq, Repr

/-- The integers from `a` to `b` inclusive, ascending (empty when `b < a`),
as iterated by `for x := a; x <= b; x++`. -/
def intRange (a b : Int) : List Int :=
  (List.range (b - a + 1).toNat).map fun (k : Nat) => a + (k : Int)

/-- All cells of a placement's rectangle in the iteration order of
`validateLayout` (`x` outer ascending, `y` inner ascending). -/
def cellsOf (pos : GridPosition) : List (Int × Int) :=
  (intRange pos.topLeftX pos.bottomRightX).flatMap fun x =>
    (intRange pos.topLeftY pos.bottomRightY).map fun y => (x, y)

/-- The occupancy map `occ`, cell ↦ claiming placement index. -/
def OccMap := List ((Int × Int) × Nat)

/-- Lookup in the occupancy map. -/
def occLookup (occ : OccMap) (c : Int × Int) : Option Nat :=
  match occ with
  | [] => none
  | (c', i) :: rest => if c' = c then some i else occLookup rest c

/-- The lookup `layout.Placements[other].Filename` (used in the overlap message). -/
def nameAt (ps : List PhotoPlacement) (i : Nat) : String :=
  ((ps.get? i).map PhotoPlacement.filename).getD ""

/-- The inner cell-walking loops of `validateLayout`: claim each cell for
placement `index`, failing on the first already-occupied cell. -/
def claimCells (mobile : Bool) (ps : List PhotoPlacement) (index : Nat)
    (fn : String) : List (Int × Int) → OccMap → Except LayoutError OccMap
  | [], occ => .ok occ
  | c :: rest, occ =>
    match occLookup occ c with
    | some other => .error (.overlap mobile index fn other (nameAt ps other) c)
    | none => claimCells mobile ps index fn rest ((c, index) :: occ)

/-- The per-placement bounds checks of `validateLayout`, in source order. -/
def checkBounds (mobile : Bool) (gw : Int) (index : Nat) (p : PhotoPlacement) :
    Option LayoutError :=
  if p.position.topLeftX < 1 ∨ p.position.topLeftY < 1 then
    some (.topLeftTooSmall mobile index p.filename)
  else if p.position.bottomRightX < p.position.topLeftX ∨
      p.position.bottomRightY < p.position.topLeftY then
    some (.bottomRightBeforeTopLeft mobile index p.filename)
  else if gw < p.position.bottomRightX then
    some (.beyondGridWidth mobile index p.filename gw p.position.bottomRightX)
  else none

/-- The placement loop of `validateLayout` over one grid: bounds checks then
cell claiming, threading the occupancy map; `index` is the loop index of the
head of `rest`, and `ps` the full placement list (for error messages). -/
def validatePlacements (mobile : Bool) (gw : Int) (ps : List PhotoPlacement) :
    OccMap → Nat → List PhotoPlacement → Except LayoutError OccMap
  | occ, _, [] => .ok occ
  | occ, index, p :: rest =>
    match checkBounds mobile gw index p with
    | some e => .error e
    | none =>
      match claimCells mobile ps index p.filename (cellsOf p.position) occ with
      | .error e => .error e
      | .ok occ' => validatePlacements mobile gw ps occ' (index + 1) rest

/-- The mobile grid width actually validated against: `6` when the declared
one is not positive (`mobileGridWidth <= 0`). -/
def effectiveMobileWidth (declared : Int) : Int :=
  if declared ≤ 0 then 6 else declared

/-- The `validateLayout` function of `generator.go`: nil check, desktop grid width check,
desktop placements, then mobile placements against an independent occupancy
map and the (defaulted) mobile grid width. -/
def validateLayout (layout : Option LayoutConfig) : Except LayoutError Unit :=
  match layout with
  | none => .error .nilLayout
  | some l =>
    if l.gridWidth ≤ 0 then .error .gridWidthNotPositive
    else
      match validatePlacements false l.gridWidth l.placements [] 0 l.placements with
      | .error e => .error e
      | .ok _ =>
        match validatePlacements true (effectiveMobileWidth l.mobileGridWidth)
            l.mobilePlacements [] 0 l.mobilePlacements with
        | .error e => .error e
        | .ok _ => .ok ()

/-! ## Layout packing algorithms (`internal/layouts/layout.go`)

`GetImageDimensions(path)` is modelled by a filesystem oracle
`fsys : String → Option (Int × Int)` returning the decoded config's
`(Width, Height)` (`none` for a missing/undecodable file); the `Ratio`
field is `float64(Width)/float64(Height)`, here exact division in `ℚ`. -/

/-- The `layouts.LayoutItem` structure. -/
structure LayoutItem where
  filename : String
  x : Int
  y : Int
  width : Int
  height : Int
  colSpan : Int
  rowSpan : Int
deriving DecidableEq, Repr

/-- The fixed `containerWidth = 1200` constant of `layout.go`. -/
def containerWidth : Int := 1200

/-- The row-closing block of `JustifiedLayout`: scale every item of the row
by `scaleFactor`, laying items out left to right from `x` with `gap`
between them at vertical position `y`. -/
def scaleRow (scaleFactor : ℚ) (gap y : Int) : List LayoutItem → Int → List LayoutItem
  | [], _ => []
  | item :: rest, x =>
    let w := truncQ ((item.width : ℚ) * scaleFactor)
    let h := truncQ ((item.height : ℚ) * scaleFactor)
    { item with width := w, height := h, x := x, y := y } ::
      scaleRow scaleFactor gap y rest (x + w + gap)

/-- Laying out the trailing unfinished row of `JustifiedLayout` (unscaled). -/
def placeTrailing (gap y : Int) : List LayoutItem → Int → List LayoutItem
  | [], _ => []
  | item :: rest, x =>
    { item with x := x, y := y } :: placeTrailing gap y rest (x + item.width + gap)

/-- The loop state of `JustifiedLayout`; `rows` collects the completed
(closed and scaled) rows in order, whose concatenation is the `items` slice
so far. -/
structure JustifiedState where
  rows : List (List LayoutItem)
  currentRow : List LayoutItem
  currentRowWidth : ℚ
  y : Int

/-- The loop body of `JustifiedLayout` for one image path. -/
def justifiedStep (fsys : String → Option (Int × Int)) (rowHeight gap : Int)
    (st : JustifiedState) (path : String) : JustifiedState :=
  match fsys path with
  | none => st
  | some (w0, h0) =>
    let ratio : ℚ := (w0 : ℚ) / (h0 : ℚ)
    let width : ℚ := (rowHeight : ℚ) * ratio
    let item : LayoutItem :=
      { filename := path, x := 0, y := 0, width := truncQ width,
        height := rowHeight, colSpan := 0, rowSpan := 0 }
    let currentRow := st.currentRow ++ [item]
    let currentRowWidth := st.currentRowWidth + width + (gap : ℚ)
    if (containerWidth : ℚ) ≤ currentRowWidth then
      let scaleFactor := (containerWidth : ℚ) / (currentRowWidth - (gap : ℚ))
      { rows := st.rows ++ [scaleRow scaleFactor gap st.y currentRow 0],
        currentRow := [],
        currentRowWidth := 0,
        y := st.y + truncQ ((rowHeight : ℚ) * scaleFactor) + gap }
    else
      { st with currentRow := currentRow, currentRowWidth := currentRowWidth }

/-- The final loop state of `JustifiedLayout` over all image paths. -/
def justifiedFinal (fsys : String → Option (Int × Int)) (paths : List String)
    (rowHeight gap : Int) : JustifiedState :=
  paths.foldl (justifiedStep fsys rowHeight gap)
    { rows := [], currentRow := [], currentRowWidth := 0, y := 0 }

/-- The `items` slice returned by `JustifiedLayout`: the completed rows in
order followed by the trailing unfinished row laid out at natural size. -/
def justifiedItems (fsys : String → Option (Int × Int)) (paths : List String)
    (rowHeight gap : Int) : List LayoutItem :=
  let st := justifiedFinal fsys paths rowHeight gap
  st.rows.flatten ++ placeTrailing gap st.y st.currentRow 0

/-- The `layouts.JustifiedLayout` function: its Go error result is always `nil`. -/
def JustifiedLayout (fsys : String → Option (Int × Int)) (paths : List String)
    (rowHeight gap : Int) : Except String (List LayoutItem) :=
  .ok (justifiedItems fsys paths rowHeight gap)

/-- The loop body of `GridLayout`; `i` is the index in the original path
list (skipped images still advance it). -/
def gridItemsAux (fsys : String → Option (Int × Int)) (columns gap colWidth : Int) :
    Nat → List String → List LayoutItem
  | _, [] => []
  | i, path :: rest =>
    match fsys path with
    | none => gridItemsAux fsys columns gap colWidth (i + 1) rest
    | some (w0, h0) =>
      let ratio : ℚ := (w0 : ℚ) / (h0 : ℚ)
      let height := truncQ ((colWidth : ℚ) / ratio)
      let row := Int.tdiv (i : Int) columns
      let col := Int.tmod (i : Int) columns
      { filename := path, x := col * (colWidth + gap), y := row * (height + gap),
        width := colWidth, height := height, colSpan := 1, rowSpan := 1 } ::
        gridItemsAux fsys columns gap colWidth (i + 1) rest

/-- The items computed by `layouts.GridLayout`. -/
def gridItems (fsys : String → Option (Int × Int)) (paths : List String)
    (columns gap : Int) : List LayoutItem :=
  let totalGap := gap * (columns - 1)
  let colWidth := Int.tdiv (containerWidth - totalGap) columns
  gridItemsAux fsys columns gap colWidth 0 paths

/-- The `layouts.GridLayout` function: its Go error result is always `nil`. -/
def GridLayout (fsys : String → Option (Int × Int)) (paths : List String)
    (columns gap : Int) : Except String (List LayoutItem) :=
  .ok (gridItems fsys paths columns gap)

/-- Width a laid-out row occupies: the sum of its item widths plus the
inter-item gaps. -/
def rowLaidWidth (row : List LayoutItem) (gap : Int) : Int :=
  (row.map LayoutItem.width).sum + gap * ((row.length : Int) - 1)

/-! ## Specification-side predicates for the validator -/

/-- The per-placement acceptance condition of `validateLayout`: coordinates
at least 1, bottom-right not before top-left on either axis, bottom-right x
within the grid width. There is no upper bound on either y coordinate. -/
def placementInBounds (gw : Int) (pos : GridPosition) : Prop :=
  1 ≤ pos.topLeftX ∧ 1 ≤ pos.topLeftY ∧ pos.topLeftX ≤ pos.bottomRightX ∧
    pos.topLeftY ≤ pos.bottomRightY ∧ pos.bottomRightX ≤ gw

instance (gw : Int) (pos : GridPosition) : Decidable (placementInBounds gw pos) := by
  unfold placementInBounds; infer_instance

/-- Two placements claim no common cell. -/
def cellDisjoint (p q : PhotoPlacement) : Prop :=
  ∀ c ∈ cellsOf p.position, c ∉ cellsOf q.position

instance (p q : PhotoPlacement) : Decidable (cellDisjoint p q) := by
  unfold cellDisjoint; infer_instance

/-- The cells claimed by placement number `i` of the list (empty when there
is no such placement). -/
def cellsAt (ps : List PhotoPlacement) (i : Nat) : List (Int × Int) :=
  ((ps.get? i).map fun p => cellsOf p.position).getD []

/-- Placements `i ≠ j` of the list both cover the cell `c`. -/
def sharedCellAt (ps : List PhotoPlacement) (i j : Nat) (c : Int × Int) : Prop :=
  i ≠ j ∧ c ∈ cellsAt ps i ∧ c ∈ cellsAt ps j

instance (ps : List PhotoPlacement) (i j : Nat) (c : Int × Int) :
    Decidable (sharedCellAt ps i j c) := by
  unfold sharedCellAt; infer_instance

/-! ## Validator lemmas -/

theorem mem_intRange {lo hi a : Int} : a ∈ intRange lo hi ↔ lo ≤ a ∧ a ≤ hi := by
  unfold intRange
  simp only [List.mem_map, List.mem_range]
  constructor
  · rintro ⟨k, hk, rfl⟩
    omega
  · rintro ⟨h1, h2⟩
    exact ⟨(a - lo).toNat, by omega, by omega⟩

theorem mem_cellsOf {pos : GridPosition} {c : Int × Int} :
    c ∈ cellsOf pos ↔ pos.topLeftX ≤ c.1 ∧ c.1 ≤ pos.bottomRightX ∧
      pos.topLeftY ≤ c.2 ∧ c.2 ≤ pos.bottomRightY := by
  obtain ⟨x, y⟩ := c
  unfold cellsOf
  simp only [List.mem_flatMap, List.mem_map, mem_intRange, Prod.mk.injEq]
  constructor
  · rintro ⟨x', hx, y', hy, rfl, rfl⟩
    exact ⟨hx.1, hx.2, hy.1, hy.2⟩
  · rintro ⟨h1, h2, h3, h4⟩
    exact ⟨x, ⟨h1, h2⟩, y, ⟨h3, h4⟩, rfl, rfl⟩

theorem intRange_nodup (lo hi : Int) : (intRange lo hi).Nodup :=
  List.Nodup.map (fun a b h => by omega) (List.nodup_range _)

theorem cellsOf_nodup (pos : GridPosition) : (cellsOf pos).Nodup := by
  unfold cellsOf
  rw [List.nodup_flatMap]
  refine ⟨fun x _ => (intRange_nodup _ _).map fun a b h => by
    simpa using congrArg Prod.snd h, ?_⟩
  refine (intRange_nodup _ _).imp ?_
  intro a b hab
  simp only [Function.onFun, List.disjoint_left, List.mem_map]
  rintro c ⟨y, _, rfl⟩ ⟨y', _, hc⟩
  exact hab (by simpa using (congrArg Prod.fst hc).symm)

theorem occLookup_cons (c' : Int × Int) (i : Nat) (occ : OccMap) (c : Int × Int) :
    occLookup ((c', i) :: occ) c = if c' = c then some i else occLookup occ c := rfl

/-- Lookup after a successful `claimCells`: the claimed cells now map to
`index`, everything else is unchanged. -/
theorem claimCells_ok_lookup {m : Bool} {ps : List PhotoPlacement} {index : Nat}
    {fn : String} :
    ∀ {cells : List (Int × Int)} {occ occ' : OccMap},
      claimCells m ps index fn cells occ = .ok occ' →
      ∀ c, occLookup occ' c = if c ∈ cells then some index else occLookup occ c
  | [], occ, occ', h, c => by
    simp only [claimCells] at h
    cases h
    simp
  | c0 :: rest, occ, occ', h, c => by
    simp only [claimCells] at h
    cases hl : occLookup occ c0 with
    | some other => rw [hl] at h; cases h
    | none =>
      rw [hl] at h
      have ih := claimCells_ok_lookup h c
      by_cases hc : c = c0
      · subst hc
        rw [ih]
        by_cases hr : c ∈ rest <;>
          simp [hr, occLookup_cons, List.mem_cons]
      · rw [ih, occLookup_cons]
        by_cases hr : c ∈ rest <;>
          simp [hr, List.mem_cons, hc, Ne.symm hc]

/-- A successful `claimCells` requires all claimed cells to have been free. -/
theorem claimCells_ok_none {m : Bool} {ps : List PhotoPlacement} {index : Nat}
    {fn : String} :
    ∀ {cells : List (Int × Int)} {occ occ' : OccMap},
      claimCells m ps index fn cells occ = .ok occ' →
      ∀ c ∈ cells, occLookup occ c = none
  | [], _, _, _, c => by simp
  | c0 :: rest, occ, occ', h, c => by
    simp only [claimCells] at h
    cases hl : occLookup occ c0 with
    | some other => rw [hl] at h; cases h
    | none =>
      rw [hl] at h
      intro hc
      rcases List.mem_cons.mp hc with rfl | hc'
      · exact hl
      · have := claimCells_ok_none h c hc'
        rw [occLookup_cons] at this
        by_cases h0 : c0 = c
        · simp [h0] at this
        · simpa [h0] using this

/-- Completeness: `claimCells` succeeds when the claimed cells are distinct and free. -/
theorem claimCells_ok_exists (m : Bool) (ps : List PhotoPlacement) (index : Nat)
    (fn : String) :
    ∀ (cells : List (Int × Int)) (occ : OccMap), cells.Nodup →
      (∀ c ∈ cells, occLookup occ c = none) →
      ∃ occ', claimCells m ps index fn cells occ = .ok occ'
  | [], occ, _, _ => ⟨occ, rfl⟩
  | c0 :: rest, occ, hnd, hfree => by
    have h0 : occLookup occ c0 = none := hfree c0 (List.mem_cons_self ..)
    have hnd' := (List.nodup_cons.mp hnd).2
    have h0nr := (List.nodup_cons.mp hnd).1
    have hfree' : ∀ c ∈ rest, occLookup ((c0, index) :: occ) c = none := by
      intro c hc
      rw [occLookup_cons, if_neg (fun he => h0nr (by rw [he]; exact hc))]
      exact hfree c (List.mem_cons_of_mem _ hc)
    obtain ⟨occ', hocc'⟩ :=
      claimCells_ok_exists m ps index fn rest ((c0, index) :: occ) hnd' hfree'
    exact ⟨occ', by simp only [claimCells, h0]; exact hocc'⟩

/-- A failing `claimCells` fails with an overlap error at one of the claimed
cells, against the placement the occupancy map records for that cell. -/
theorem claimCells_error {m : Bool} {ps : List PhotoPlacement} {index : Nat}
    {fn : String} :
    ∀ {cells : List (Int × Int)} {occ : OccMap} {e : LayoutError},
      cells.Nodup → claimCells m ps index fn cells occ = .error e →
      ∃ c ∈ cells, ∃ j, occLookup occ c = some j ∧
        e = .overlap m index fn j (nameAt ps j) c
  | [], _, _, _, h => by simp only [claimCells] at h; cases h
  | c0 :: rest, occ, e, hnd, h => by
    simp only [claimCells] at h
    cases hl : occLookup occ c0 with
    | some other =>
      rw [hl] at h
      cases h
      exact ⟨c0, List.mem_cons_self .., other, hl, rfl⟩
    | none =>
      rw [hl] at h
      obtain ⟨c, hc, j, hj, he⟩ :=
        claimCells_error (List.nodup_cons.mp hnd).2 h
      rw [occLookup_cons] at hj
      have hne : c0 ≠ c := fun h0 => (List.nodup_cons.mp hnd).1 (h0 ▸ hc)
      rw [if_neg hne] at hj
      exact ⟨c, List.mem_cons_of_mem _ hc, j, hj, he⟩

theorem checkBounds_eq_none {m : Bool} {gw : Int} {i : Nat} {p : PhotoPlacement} :
    checkBounds m gw i p = none ↔ placementInBounds gw p.position := by
  unfold checkBounds placementInBounds
  split_ifs with h1 h2 h3 <;> simp <;> omega

/-- Shape: `checkBounds` never produces an overlap error. -/
theorem checkBounds_some_shape {m : Bool} {gw : Int} {i : Nat}
    {p : PhotoPlacement} {e : LayoutError} (h : checkBounds m gw i p = some e) :
    e = .topLeftTooSmall m i p.filename ∨
    e = .bottomRightBeforeTopLeft m i p.filename ∨
    e = .beyondGridWidth m i p.filename gw p.position.bottomRightX := by
  unfold checkBounds at h
  split_ifs at h <;> simp_all

theorem get?_of_drop_eq_cons {α : Type _} :
    ∀ (l : List α) (i : Nat) (p : α) (rest : List α), l.drop i = p :: rest →
      l.get? i = some p ∧ l.drop (i + 1) = rest
  | [], i, p, rest, h => by simp at h
  | a :: l', 0, p, rest, h => by
    simp only [List.drop_zero] at h
    cases h
    exact ⟨rfl, by simp⟩
  | a :: l', i + 1, p, rest, h => by
    simp only [List.drop_succ_cons] at h
    have := get?_of_drop_eq_cons l' i p rest h
    exact ⟨this.1, by simpa using this.2⟩

theorem cellsAt_of_get? {ps : List PhotoPlacement} {k : Nat} {p : PhotoPlacement}
    (h : ps.get? k = some p) : cellsAt ps k = cellsOf p.position := by
  simp only [cellsAt, h]
  rfl

theorem length_of_mem_cellsAt {ps : List PhotoPlacement} {k : Nat} {c : Int × Int}
    (h : c ∈ cellsAt ps k) : k < ps.length := by
  by_contra hk
  rw [cellsAt, List.get?_eq_none.mpr (by omega)] at h
  simp at h

/-- Soundness of the placement loop: when it succeeds, every placement from
`index` on passes the bounds checks, placements from `index` on are pairwise
cell-disjoint, and none of their cells was already occupied. -/
theorem vp_sound {m : Bool} {gw : Int} {ps : List PhotoPlacement} :
    ∀ (rest : List PhotoPlacement) (occ : OccMap) (index : Nat) (occ' : OccMap),
      ps.drop index = rest →
      validatePlacements m gw ps occ index rest = .ok occ' →
      (∀ k p, index ≤ k → ps.get? k = some p →
        placementInBounds gw p.position) ∧
      (∀ k l, index ≤ k → k < l → ∀ c ∈ cellsAt ps k, c ∉ cellsAt ps l) ∧
      (∀ k, index ≤ k → ∀ c ∈ cellsAt ps k, occLookup occ c = none)
  | [], occ, index, occ', hdrop, _ => by
    have hlen : ps.length ≤ index := by
      have := congrArg List.length hdrop
      simp only [List.length_drop, List.length_nil] at this
      omega
    refine ⟨?_, ?_, ?_⟩
    · intro k p hk hget
      rw [List.get?_eq_none.mpr (by omega)] at hget
      cases hget
    · intro k l hk _ c hck
      have := length_of_mem_cellsAt hck
      omega
    · intro k hk c hck
      have := length_of_mem_cellsAt hck
      omega
  | p0 :: rest', occ, index, occ', hdrop, h => by
    obtain ⟨hget0, hdrop'⟩ := get?_of_drop_eq_cons ps index p0 rest' hdrop
    have hca : cellsAt ps index = cellsOf p0.position := cellsAt_of_get? hget0
    simp only [validatePlacements] at h
    cases hb : checkBounds m gw index p0 with
    | some e => rw [hb] at h; cases h
    | none =>
      rw [hb] at h
      cases hc : claimCells m ps index p0.filename (cellsOf p0.position) occ with
      | error e => rw [hc] at h; cases h
      | ok occ1 =>
        rw [hc] at h
        obtain ⟨ih1, ih2, ih3⟩ := vp_sound rest' occ1 (index + 1) occ' hdrop' h
        have hlook := claimCells_ok_lookup hc
        refine ⟨?_, ?_, ?_⟩
        · intro k p hk hget
          rcases Nat.eq_or_lt_of_le hk with rfl | hk'
          · have hp : p = p0 := by
              rw [hget0] at hget
              exact (Option.some.inj hget).symm
            subst hp
            exact checkBounds_eq_none.mp hb
          · exact ih1 k p hk' hget
        · intro k l hk hkl c hck hcl
          rcases Nat.eq_or_lt_of_le hk with rfl | hk'
          · have h3 := ih3 l (by omega) c hcl
            rw [hlook c] at h3
            rw [hca] at hck
            simp [hck] at h3
          · exact ih2 k l hk' hkl c hck hcl
        · intro k hk c hck
          rcases Nat.eq_or_lt_of_le hk with rfl | hk'
          · rw [hca] at hck
            exact claimCells_ok_none hc c hck
          · have h3 := ih3 k hk' c hck
            rw [hlook c] at h3
            by_cases hmem : c ∈ cellsOf p0.position
            · simp [hmem] at h3
            · simpa [hmem] using h3

/-- Completeness of the placement loop: in-bounds, pairwise-disjoint
placements whose cells are free in the incoming occupancy map validate
successfully. -/
theorem vp_complete {m : Bool} {gw : Int} {ps : List PhotoPlacement} :
    ∀ (rest : List PhotoPlacement) (occ : OccMap) (index : Nat),
      ps.drop index = rest →
      (∀ k p, index ≤ k → ps.get? k = some p →
        placementInBounds gw p.position) →
      (∀ k l, index ≤ k → k < l → ∀ c ∈ cellsAt ps k, c ∉ cellsAt ps l) →
      (∀ k, index ≤ k → ∀ c ∈ cellsAt ps k, occLookup occ c = none) →
      ∃ occ', validatePlacements m gw ps occ index rest = .ok occ'
  | [], occ, _, _, _, _, _ => ⟨occ, rfl⟩
  | p0 :: rest', occ, index, hdrop, h1, h2, h3 => by
    obtain ⟨hget0, hdrop'⟩ := get?_of_drop_eq_cons ps index p0 rest' hdrop
    have hca : cellsAt ps index = cellsOf p0.position := cellsAt_of_get? hget0
    have hb : checkBounds m gw index p0 = none :=
      checkBounds_eq_none.mpr (h1 index p0 le_rfl hget0)
    have hfree : ∀ c ∈ cellsOf p0.position, occLookup occ c = none := by
      intro c hc
      exact h3 index le_rfl c (by rw [hca]; exact hc)
    obtain ⟨occ1, hc1⟩ :=
      claimCells_ok_exists m ps index p0.filename (cellsOf p0.position) occ
        (cellsOf_nodup _) hfree
    have h3' : ∀ k, index + 1 ≤ k → ∀ c ∈ cellsAt ps k,
        occLookup occ1 c = none := by
      intro k hk c hck
      rw [claimCells_ok_lookup hc1 c]
      have hnotp0 : c ∉ cellsOf p0.position := by
        intro hmem
        exact h2 index k le_rfl hk c (by rw [hca]; exact hmem) hck
      rw [if_neg hnotp0]
      exact h3 k (by omega) c hck
    obtain ⟨occ', hrec⟩ := vp_complete rest' occ1 (index + 1) hdrop'
      (fun k p hk => h1 k p (by omega)) (fun k l hk => h2 k l (by omega)) h3'
    exact ⟨occ', by simp only [validatePlacements, hb, hc1]; exact hrec⟩

/-- The occupancy map records only cells of placements before `bound`. -/
def occSound (ps : List PhotoPlacement) (bound : Nat) (occ : OccMap) : Prop :=
  ∀ c j, occLookup occ c = some j → j < bound ∧ c ∈ cellsAt ps j

/-- An overlap error names two distinct placements of the grid being
validated that really do both cover the reported cell, and carries this
grid's mobile flag. -/
theorem vp_overlap {m : Bool} {gw : Int} {ps : List PhotoPlacement} :
    ∀ (rest : List PhotoPlacement) (occ : OccMap) (index : Nat) (mb : Bool)
      (a : Nat) (fa : String) (b : Nat) (fb : String) (c : Int × Int),
      ps.drop index = rest → occSound ps index occ →
      validatePlacements m gw ps occ index rest =
        .error (.overlap mb a fa b fb c) →
      mb = m ∧ b < a ∧ c ∈ cellsAt ps a ∧ c ∈ cellsAt ps b
  | [], _, _, _, _, _, _, _, _, _, _, h => by
    simp only [validatePlacements] at h
    cases h
  | p0 :: rest', occ, index, mb, a, fa, b, fb, c, hdrop, hsound, h => by
    obtain ⟨hget0, hdrop'⟩ := get?_of_drop_eq_cons ps index p0 rest' hdrop
    have hca : cellsAt ps index = cellsOf p0.position := cellsAt_of_get? hget0
    simp only [validatePlacements] at h
    cases hb : checkBounds m gw index p0 with
    | some e =>
      rw [hb] at h
      cases h
      rcases checkBounds_some_shape hb with h' | h' | h' <;> simp at h'
    | none =>
      rw [hb] at h
      cases hc : claimCells m ps index p0.filename (cellsOf p0.position) occ with
      | error e =>
        rw [hc] at h
        cases h
        obtain ⟨c0, hc0, j, hj, he⟩ := claimCells_error (cellsOf_nodup _) hc
        injection he with hmb ha hfa hbj hfb hcc
        obtain ⟨hji, hjc⟩ := hsound c0 j hj
        refine ⟨hmb, ?_, ?_, ?_⟩
        · rw [ha, hbj]
          exact hji
        · rw [hcc, ha, hca]
          exact hc0
        · rw [hcc, hbj]
          exact hjc
      | ok occ1 =>
        rw [hc] at h
        have hsound' : occSound ps (index + 1) occ1 := by
          intro c' j hj
          rw [claimCells_ok_lookup hc c'] at hj
          by_cases hmem : c' ∈ cellsOf p0.position
          · rw [if_pos hmem] at hj
            cases hj
            exact ⟨by omega, by rw [hca]; exact hmem⟩
          · rw [if_neg hmem] at hj
            obtain ⟨hj1, hj2⟩ := hsound c' j hj
            exact ⟨by omega, hj2⟩
        exact vp_overlap rest' occ1 (index + 1) mb a fa b fb c hdrop' hsound' h

/-- The whole-grid acceptance condition of the specification: every
placement in bounds and no two placements sharing a cell. -/
def gridAccepted (gw : Int) (ps : List PhotoPlacement) : Prop :=
  (∀ p ∈ ps, placementInBounds gw p.position) ∧ ps.Pairwise cellDisjoint

theorem pairwise_cellDisjoint_iff {ps : List PhotoPlacement} :
    ps.Pairwise cellDisjoint ↔
      ∀ k l, k < l → ∀ c ∈ cellsAt ps k, c ∉ cellsAt ps l := by
  rw [List.pairwise_iff_get]
  constructor
  · intro h k l hkl c hck hcl
    have hk := length_of_mem_cellsAt hck
    have hl := length_of_mem_cellsAt hcl
    rw [cellsAt_of_get? (ps.get?_eq_get hk)] at hck
    rw [cellsAt_of_get? (ps.get?_eq_get hl)] at hcl
    exact h ⟨k, hk⟩ ⟨l, hl⟩ hkl c hck hcl
  · intro h i j hij c hci hcj
    refine h i.val j.val hij c ?_ ?_
    · rw [cellsAt_of_get? (ps.get?_eq_get i.isLt)]
      exact hci
    · rw [cellsAt_of_get? (ps.get?_eq_get j.isLt)]
      exact hcj

/-- A top-level run of the placement loop succeeds exactly on accepted
grids. -/
theorem vp_top_ok_iff {m : Bool} {gw : Int} {ps : List PhotoPlacement} :
    (∃ occ', validatePlacements m gw ps [] 0 ps = .ok occ') ↔
      gridAccepted gw ps := by
  constructor
  · rintro ⟨occ', h⟩
    obtain ⟨h1, h2, _⟩ := vp_sound ps [] 0 occ' (by simp) h
    constructor
    · intro p hp
      obtain ⟨n, hn⟩ := List.mem_iff_get?.mp hp
      exact h1 n p (Nat.zero_le _) hn
    · exact pairwise_cellDisjoint_iff.mpr fun k l hkl =>
        h2 k l (Nat.zero_le _) hkl
  · rintro ⟨h1, h2⟩
    exact vp_complete ps [] 0 (by simp)
      (fun k p _ hget => h1 p (List.get?_mem hget))
      (fun k l _ hkl => pairwise_cellDisjoint_iff.mp h2 k l hkl)
      (fun k _ c _ => rfl)

/-- Characterization: `validateLayout` succeeds exactly when the desktop grid width is
positive and both grids are accepted (the mobile one against the defaulted
width). -/
theorem validateLayout_ok_iff (l : LayoutConfig) :
    validateLayout (some l) = .ok () ↔
      0 < l.gridWidth ∧ gridAccepted l.gridWidth l.placements ∧
        gridAccepted (effectiveMobileWidth l.mobileGridWidth)
          l.mobilePlacements := by
  constructor
  · intro h
    simp only [validateLayout] at h
    by_cases hgw : l.gridWidth ≤ 0
    · rw [if_pos hgw] at h
      cases h
    · rw [if_neg hgw] at h
      cases h1 : validatePlacements false l.gridWidth l.placements [] 0
          l.placements with
      | error e => rw [h1] at h; cases h
      | ok o1 =>
        rw [h1] at h
        cases h2 : validatePlacements true
            (effectiveMobileWidth l.mobileGridWidth) l.mobilePlacements [] 0
            l.mobilePlacements with
        | error e => rw [h2] at h; cases h
        | ok o2 =>
          exact ⟨by omega, vp_top_ok_iff.mp ⟨o1, h1⟩, vp_top_ok_iff.mp ⟨o2, h2⟩⟩
  · rintro ⟨hgw, hd, hm⟩
    obtain ⟨o1, h1⟩ := (vp_top_ok_iff (m := false)).mpr hd
    obtain ⟨o2, h2⟩ := (vp_top_ok_iff (m := true)).mpr hm
    simp only [validateLayout]
    rw [if_neg (not_le.mpr hgw), h1, h2]

/-- An overlap error from `validateLayout` names a genuinely shared cell of
the grid indicated by its mobile flag. -/
theorem validateLayout_overlap {l : LayoutConfig} {mb : Bool} {a : Nat}
    {fa : String} {b : Nat} {fb : String} {c : Int × Int}
    (h : validateLayout (some l) = .error (.overlap mb a fa b fb c)) :
    (mb = false ∧ sharedCellAt l.placements a b c) ∨
    (mb = true ∧ sharedCellAt l.mobilePlacements a b c) := by
  simp only [validateLayout] at h
  by_cases hgw : l.gridWidth ≤ 0
  · rw [if_pos hgw] at h
    cases h
  · rw [if_neg hgw] at h
    cases h1 : validatePlacements false l.gridWidth l.placements [] 0
        l.placements with
    | error e =>
      rw [h1] at h
      have he : e = .overlap mb a fa b fb c := Except.error.inj h
      subst he
      obtain ⟨hmb, hba, hcb, hca'⟩ :=
        vp_overlap l.placements [] 0 mb a fa b fb c (by simp)
          (fun c j hj => by simp [occLookup] at hj) h1
      exact Or.inl ⟨hmb, by omega, hcb, hca'⟩
    | ok o1 =>
      rw [h1] at h
      cases h2 : validatePlacements true
          (effectiveMobileWidth l.mobileGridWidth) l.mobilePlacements [] 0
          l.mobilePlacements with
      | error e =>
        rw [h2] at h
        have he : e = .overlap mb a fa b fb c := Except.error.inj h
        subst he
        obtain ⟨hmb, hba, hcb, hca'⟩ :=
          vp_overlap l.mobilePlacements [] 0 mb a fa b fb c (by simp)
            (fun c j hj => by simp [occLookup] at hj) h2
        exact Or.inr ⟨hmb, by omega, hcb, hca'⟩
      | ok o2 =>
        rw [h2] at h
        cases h

/-- C8: validation rejects with the grid-width configuration error whenever
the declared (desktop) grid width is ≤ 0 — for every layout, hence before and
regardless of any per-placement check — and a layout with positive grid width
and no placements in either grid always validates successfully (for any
declared mobile grid width). -/
theorem claim_C8 (cfg : LayoutConfig) :
    (cfg.gridWidth ≤ 0 →
      validateLayout (some cfg) = .error .gridWidthNotPositive) ∧
    (0 < cfg.gridWidth → cfg.placements = [] → cfg.mobilePlacements = [] →
      validateLayout (some cfg) = .ok ()) := by
  constructor
  · intro h
    simp [validateLayout, h]
  · intro h h1 h2
    simp [validateLayout, not_le.mpr h, h1, h2, validatePlacements]

/-- Witness for C8: a layout with `grid_width = 0` and a wildly invalid
placement is rejected with the grid-width error (not a placement error), and
an empty layout of width 12 with a negative declared mobile width is
accepted. -/
theorem claim_C8_witness :
    ((0 : Int) ≤ 0 ∧
      validateLayout (some ⟨0, [⟨"bad", ⟨-3, 0, -9, -9⟩⟩], 0, []⟩) =
        .error .gridWidthNotPositive) ∧
    ((0 : Int) < 12 ∧
      validateLayout (some ⟨12, [], -7, []⟩) = .ok ()) :=
  ⟨⟨by decide, (claim_C8 ⟨0, [⟨"bad", ⟨-3, 0, -9, -9⟩⟩], 0, []⟩).1 (by decide)⟩,
   ⟨by decide, (claim_C8 ⟨12, [], -7, []⟩).2 (by decide) rfl rfl⟩⟩

/-! ## Claim C10: non-positive mobile grid width is silently defaulted -/

/-- C10: a declared mobile grid width ≤ 0 — including an explicit zero or
negative value — never causes rejection on its own account: validation
behaves exactly as if the mobile grid width were 6, and mobile placements
are checked against that bound; in contrast a desktop grid width ≤ 0 rejects
the whole layout. -/
theorem claim_C10 (cfg : LayoutConfig) :
    (cfg.mobileGridWidth ≤ 0 →
      validateLayout (some cfg) =
        validateLayout (some { cfg with mobileGridWidth := 6 })) ∧
    (cfg.gridWidth ≤ 0 →
      validateLayout (some cfg) = .error .gridWidthNotPositive) := by
  constructor
  · intro h
    have he : effectiveMobileWidth cfg.mobileGridWidth = effectiveMobileWidth 6 := by
      simp [effectiveMobileWidth, h]
    simp only [validateLayout, he]
  · intro h
    simp [validateLayout, h]

/-- Witness for C10: with an explicitly negative mobile width `-3`, a layout
whose mobile placement spans columns 1–6 validates exactly as under width 6
(and in fact succeeds), while desktop width `0` is rejected. -/
theorem claim_C10_witness :
    ((-3 : Int) ≤ 0 ∧
      validateLayout (some ⟨12, [], -3, [⟨"m", ⟨1, 1, 6, 2⟩⟩]⟩) =
        validateLayout
          (some { (⟨12, [], -3, [⟨"m", ⟨1, 1, 6, 2⟩⟩]⟩ : LayoutConfig) with
                    mobileGridWidth := 6 })) ∧
    ((0 : Int) ≤ 0 ∧
      validateLayout (some ⟨0, [], -3, []⟩) = .error .gridWidthNotPositive) :=
  ⟨⟨by decide, (claim_C10 ⟨12, [], -3, [⟨"m", ⟨1, 1, 6, 2⟩⟩]⟩).1 (by decide)⟩,
   ⟨by decide, (claim_C10 ⟨0, [], -3, []⟩).2 (by decide)⟩⟩

/-! ## Claims C2, C4, C9: overlap, bounds and grid independence -/

/-- The C2 scenario: `grid_width = 12`, A:(1,1)-(6,2), B:(7,1)-(12,2). -/
def scenarioDisjoint : LayoutConfig :=
  ⟨12, [⟨"a", ⟨1, 1, 6, 2⟩⟩, ⟨"b", ⟨7, 1, 12, 2⟩⟩], 0, []⟩

/-- The C2 scenario with B changed to (6,1)-(12,2), overlapping A. -/
def scenarioOverlapping : LayoutConfig :=
  ⟨12, [⟨"a", ⟨1, 1, 6, 2⟩⟩, ⟨"b", ⟨6, 1, 12, 2⟩⟩], 0, []⟩

/-- C2: if two placements of the same grid share a cell, validation fails;
every overlap error names two distinct placements of the indicated grid that
really share the reported cell (so cell-disjoint grids never fail on overlap
grounds); and in the concrete scenario, A:(1,1)-(6,2) with B:(7,1)-(12,2) on
width 12 validates, while moving B to (6,1)-(12,2) fails with an overlap of
placements 1 and 0 at cell (6,1). -/
theorem claim_C2 (cfg : LayoutConfig) :
    ((∃ i j c, sharedCellAt cfg.placements i j c ∨
        sharedCellAt cfg.mobilePlacements i j c) →
      ∃ e, validateLayout (some cfg) = .error e) ∧
    (∀ (mb : Bool) (a : Nat) (fa : String) (b : Nat) (fb : String)
        (c : Int × Int),
      validateLayout (some cfg) = .error (.overlap mb a fa b fb c) →
      sharedCellAt (if mb then cfg.mobilePlacements else cfg.placements)
        a b c) ∧
    validateLayout (some scenarioDisjoint) = .ok () ∧
    validateLayout (some scenarioOverlapping) =
      .error (.overlap false 1 "b" 0 "a" (6, 1)) := by
  refine ⟨?_, ?_, by rfl, by rfl⟩
  · intro hshared
    cases h : validateLayout (some cfg) with
    | error e => exact ⟨e, rfl⟩
    | ok u =>
      exfalso
      cases u
      obtain ⟨_, hd, hm⟩ := (validateLayout_ok_iff cfg).mp h
      obtain ⟨i, j, c, hij⟩ := hshared
      rcases hij with ⟨hne, hci, hcj⟩ | ⟨hne, hci, hcj⟩
      · rcases Nat.lt_or_ge i j with hlt | hge
        · exact pairwise_cellDisjoint_iff.mp hd.2 i j hlt c hci hcj
        · exact pairwise_cellDisjoint_iff.mp hd.2 j i (by omega) c hcj hci
      · rcases Nat.lt_or_ge i j with hlt | hge
        · exact pairwise_cellDisjoint_iff.mp hm.2 i j hlt c hci hcj
        · exact pairwise_cellDisjoint_iff.mp hm.2 j i (by omega) c hcj hci
  · intro mb a fa b fb c h
    rcases validateLayout_overlap h with ⟨hmb, hs⟩ | ⟨hmb, hs⟩ <;>
      subst hmb <;> simpa using hs

/-- Witness for C2: in the overlapping scenario, placements 1 and 0 share
cell (6,1), and validation indeed returns an error. -/
theorem claim_C2_witness :
    (∃ i j c, sharedCellAt scenarioOverlapping.placements i j c ∨
       sharedCellAt scenarioOverlapping.mobilePlacements i j c) ∧
    ∃ e, validateLayout (some scenarioOverlapping) = .error e := by
  have hsh : ∃ i j c, sharedCellAt scenarioOverlapping.placements i j c ∨
      sharedCellAt scenarioOverlapping.mobilePlacements i j c :=
    ⟨1, 0, (6, 1), Or.inl (by decide)⟩
  exact ⟨hsh, (claim_C2 scenarioOverlapping).1 hsh⟩

/-- C4: on a layout with positive declared width, any placement with
bottom-right-x beyond the grid width makes validation fail; and a layout
whose placements all have coordinates ≥ 1, bottom-right not before top-left
and bottom-right-x within the width (`placementInBounds` — which imposes no
upper bound on any y coordinate) and are pairwise cell-disjoint always
validates. -/
theorem claim_C4 (cfg : LayoutConfig) (hgw : 0 < cfg.gridWidth) :
    ((∃ p ∈ cfg.placements, cfg.gridWidth < p.position.bottomRightX) →
      ∃ e, validateLayout (some cfg) = .error e) ∧
    ((∀ p ∈ cfg.placements, placementInBounds cfg.gridWidth p.position) →
      cfg.placements.Pairwise cellDisjoint →
      (∀ p ∈ cfg.mobilePlacements,
        placementInBounds (effectiveMobileWidth cfg.mobileGridWidth)
          p.position) →
      cfg.mobilePlacements.Pairwise cellDisjoint →
      validateLayout (some cfg) = .ok ()) := by
  constructor
  · rintro ⟨p, hp, hbr⟩
    cases h : validateLayout (some cfg) with
    | error e => exact ⟨e, rfl⟩
    | ok u =>
      exfalso
      cases u
      obtain ⟨_, ⟨hd1, _⟩, _⟩ := (validateLayout_ok_iff cfg).mp h
      have := (hd1 p hp).2.2.2.2
      omega
  · intro h1 h2 h3 h4
    exact (validateLayout_ok_iff cfg).mpr ⟨hgw, ⟨h1, h2⟩, ⟨h3, h4⟩⟩

/-- Witness for C4: a placement reaching row one billion is accepted —
there is no upper bound on y. -/
theorem claim_C4_witness :
    (0 : Int) < 12 ∧
    validateLayout
      (some ⟨12, [⟨"tall", ⟨1, 1, 6, 1000000000⟩⟩], 0, []⟩) = .ok () :=
  ⟨by decide,
   (claim_C4 ⟨12, [⟨"tall", ⟨1, 1, 6, 1000000000⟩⟩], 0, []⟩ (by decide)).2
     (by decide) (by decide) (by decide) (by decide)⟩

/-- C9: desktop and mobile occupancy are independent: a layout whose desktop
grid and whose mobile grid are each individually in-bounds and overlap-free
always validates, even when a desktop placement and a mobile placement have
identical coordinates and reference the same photo. -/
theorem claim_C9 (cfg : LayoutConfig) (hgw : 0 < cfg.gridWidth)
    (hd1 : ∀ p ∈ cfg.placements, placementInBounds cfg.gridWidth p.position)
    (hd2 : cfg.placements.Pairwise cellDisjoint)
    (hm1 : ∀ p ∈ cfg.mobilePlacements,
      placementInBounds (effectiveMobileWidth cfg.mobileGridWidth) p.position)
    (hm2 : cfg.mobilePlacements.Pairwise cellDisjoint)
    (hsame : ∃ p ∈ cfg.placements, ∃ q ∈ cfg.mobilePlacements,
      p.position = q.position ∧ p.filename = q.filename) :
    validateLayout (some cfg) = .ok () :=
  (validateLayout_ok_iff cfg).mpr ⟨hgw, ⟨hd1, hd2⟩, ⟨hm1, hm2⟩⟩

/-- Witness for C9: the same photo at the identical rectangle (1,1)-(4,3) in
both the desktop and the mobile grid validates without conflict. -/
theorem claim_C9_witness :
    ((0 : Int) < 12 ∧
      (∃ p ∈ [(⟨"x", ⟨1, 1, 4, 3⟩⟩ : PhotoPlacement)],
        ∃ q ∈ [(⟨"x", ⟨1, 1, 4, 3⟩⟩ : PhotoPlacement)],
          p.position = q.position ∧ p.filename = q.filename)) ∧
    validateLayout
      (some ⟨12, [⟨"x", ⟨1, 1, 4, 3⟩⟩], 6, [⟨"x", ⟨1, 1, 4, 3⟩⟩]⟩) =
        .ok () :=
  ⟨⟨by decide, ⟨⟨"x", ⟨1, 1, 4, 3⟩⟩, by decide,
      ⟨"x", ⟨1, 1, 4, 3⟩⟩, by decide, rfl, rfl⟩⟩,
   claim_C9 ⟨12, [⟨"x", ⟨1, 1, 4, 3⟩⟩], 6, [⟨"x", ⟨1, 1, 4, 3⟩⟩]⟩
     (by decide) (by decide) (by decide) (by decide) (by decide)
     ⟨⟨"x", ⟨1, 1, 4, 3⟩⟩, by decide,
      ⟨"x", ⟨1, 1, 4, 3⟩⟩, by decide, rfl, rfl⟩⟩

/-! ## Claims C1, C5, C6: hashing and the variant pipeline -/

theorem toBytesBE_length (k : Nat) : ∀ n : Nat, (toBytesBE k n).length = k := by
  induction k with
  | zero => intro n; rfl
  | succ k ih => intro n; simp [toBytesBE, ih]

theorem compressBlock_length (hs block : List Nat) :
    (compressBlock hs block).length = 8 := rfl

theorem sha256_length (msg : List Nat) : (sha256 msg).length = 32 := by
  have hfold : ∀ (blocks : List (List Nat)) (hs : List Nat), hs.length = 8 →
      (blocks.foldl compressBlock hs).length = 8 := by
    intro blocks
    induction blocks with
    | nil => intro hs h; simpa using h
    | cons b rest ih => intro hs _; exact ih _ (compressBlock_length ..)
  have h8 := hfold (splitBlocks (padMessage msg)) shaH0 rfl
  unfold sha256
  rw [List.length_flatten, List.map_map]
  rw [show (List.length ∘ toBytesBE 4) = fun _ => 4 from
    funext fun n => toBytesBE_length 4 n]
  rw [List.map_const', List.sum_replicate, h8]
  rfl

theorem hexEncode_length (bs : List Nat) :
    (hexEncode bs).length = 2 * bs.length := by
  show (String.mk _).data.length = _
  simp only [List.length_flatten, List.map_map]
  rw [show (List.length ∘ fun b => [hexDigit (b / 16), hexDigit (b % 16)]) =
    fun _ => 2 from funext fun n => rfl]
  rw [List.map_const', List.sum_replicate, smul_eq_mul]
  omega

/-- Hypotheses all satisfied: the variant loop writes every width in order
when every destination write succeeds. -/
theorem saveVariants_all_ok (dst : ImageDestination) (photoDir : String)
    (dims : Int × Int) (hw : ∀ f, dst.createOK f = true) :
    ∀ widths : List Int,
      saveVariants dst photoDir dims widths =
        (widths.map fun w =>
          { filename := joinPath photoDir (variantFilename photoDir w),
            width := w, height := variantHeight dims w }, none)
  | [] => rfl
  | w :: rest => by
    simp only [saveVariants, hw, if_true, List.map_cons,
      saveVariants_all_ok dst photoDir dims hw rest]

/-- C1: with `Force = false`, when every expected variant file (and, if
thumbnails are enabled, the thumbnail) already exists at the destination,
`ProcessImage` succeeds without decoding and without writing anything. -/
theorem claim_C1 (p : Processor) (decodeFn : List Nat → Option (Int × Int))
    (src : ImageSource) (dst : ImageDestination) (bs : List Nat)
    (hforce : p.config.force = false)
    (hread : src.contents = some bs)
    (hvars : ∀ w ∈ p.config.widths,
      dst.existsCheck (joinPath (photoDirOf (hexEncode (sha256 bs)))
        (variantFilename (photoDirOf (hexEncode (sha256 bs))) w)) = true)
    (hthumb : p.config.generateThumbnails = true →
      dst.existsCheck
        (thumbFilename (photoDirOf (hexEncode (sha256 bs)))) = true) :
    processImage p decodeFn src dst =
      { result := .ok (), decodes := 0, writes := [] } := by
  have hall : allVariantsExist p.config dst
      (photoDirOf (hexEncode (sha256 bs))) = true := by
    unfold allVariantsExist
    rw [List.all_eq_true]
    intro w hw
    exact hvars w hw
  have hskip : skipCheck p.config dst
      (photoDirOf (hexEncode (sha256 bs))) = true := by
    unfold skipCheck
    rw [hall]
    cases hgt : p.config.generateThumbnails
    · simp
    · simp [hthumb hgt]
  simp only [processImage, computeHash, hread]
  rw [if_pos ⟨hforce, hskip⟩]

/-- Witness for C1: a destination on which every existence check answers
true makes `processImage` return success with zero decodes and writes. -/
theorem claim_C1_witness :
    (∀ w ∈ ([480] : List Int),
      (ImageDestination.mk (fun _ => true) (fun _ => true)).existsCheck
        (joinPath (photoDirOf (hexEncode (sha256 [1, 2, 3])))
          (variantFilename (photoDirOf (hexEncode (sha256 [1, 2, 3]))) w)) =
        true) ∧
    processImage ⟨⟨[480], 80, false, true, 300⟩⟩ (fun _ => some (4000, 3000))
      ⟨"x.jpg", some [1, 2, 3]⟩ ⟨fun _ => true, fun _ => true⟩ =
      { result := .ok (), decodes := 0, writes := [] } :=
  ⟨fun _ _ => rfl,
   claim_C1 ⟨⟨[480], 80, false, true, 300⟩⟩ (fun _ => some (4000, 3000))
     ⟨"x.jpg", some [1, 2, 3]⟩ ⟨fun _ => true, fun _ => true⟩ [1, 2, 3]
     rfl rfl (fun _ _ => rfl) (fun _ => rfl)⟩

/-- C5: `ComputeHash` depends only on the source's byte content — equal
contents give equal hashes regardless of names — the hash is the hex-encoded
SHA-256 of the full content (64 hex characters, of which `ProcessImage`
uses the first 12 as the hash ID), and whole `processImage` runs on sources
with equal contents are indistinguishable. -/
theorem claim_C5 (s1 s2 : ImageSource) (bs : List Nat)
    (h1 : s1.contents = some bs) (h2 : s2.contents = some bs) :
    computeHash s1 = computeHash s2 ∧
    computeHash s1 = .ok (hexEncode (sha256 bs)) ∧
    (hexEncode (sha256 bs)).length = 64 ∧
    ∀ (p : Processor) (decodeFn : List Nat → Option (Int × Int))
      (dst : ImageDestination),
      processImage p decodeFn s1 dst = processImage p decodeFn s2 dst := by
  refine ⟨?_, ?_, ?_, ?_⟩
  · simp [computeHash, h1, h2]
  · simp [computeHash, h1]
  · rw [hexEncode_length, sha256_length]
  · intro p decodeFn dst
    simp only [processImage, computeHash, h1, h2]

/-- Witness for C5: byte-identical sources under different names hash
identically. -/
theorem claim_C5_witness :
    ((⟨"a.jpg", some [1, 2, 3]⟩ : ImageSource).contents = some [1, 2, 3] ∧
     (⟨"b.png", some [1, 2, 3]⟩ : ImageSource).contents = some [1, 2, 3]) ∧
    computeHash ⟨"a.jpg", some [1, 2, 3]⟩ =
      computeHash ⟨"b.png", some [1, 2, 3]⟩ :=
  ⟨⟨rfl, rfl⟩,
   (claim_C5 ⟨"a.jpg", some [1, 2, 3]⟩ ⟨"b.png", some [1, 2, 3]⟩ [1, 2, 3]
     rfl rfl).1⟩

/-- C6: when a source decodes to dimensions `W × H` with `W > 0` and
processing runs (force mode, all writes succeeding), every variant written
for a configured width `w` has height `⌊w * H / W⌋` (and the thumbnail
likewise at the thumbnail width), with the deterministic hash-derived
filenames. -/
theorem claim_C6 (p : Processor) (decodeFn : List Nat → Option (Int × Int))
    (src : ImageSource) (dst : ImageDestination) (bs : List Nat) (W H : Int)
    (hread : src.contents = some bs)
    (hdec : decodeFn bs = some (W, H))
    (hW : 0 < W)
    (hforce : p.config.force = true)
    (hwrite : ∀ f, dst.createOK f = true) :
    (processImage p decodeFn src dst).writes =
      (p.config.widths.map fun w =>
        { filename := joinPath (photoDirOf (hexEncode (sha256 bs)))
            (variantFilename (photoDirOf (hexEncode (sha256 bs))) w),
          width := w,
          height := truncQ ((w : ℚ) * ((H : ℚ) / (W : ℚ))) }) ++
      (if p.config.generateThumbnails then
        [{ filename := thumbFilename (photoDirOf (hexEncode (sha256 bs))),
           width := p.config.thumbnailWidth,
           height := truncQ ((p.config.thumbnailWidth : ℚ) *
             ((H : ℚ) / (W : ℚ))) }]
       else []) := by
  have hskip : ¬(p.config.force = false ∧
      skipCheck p.config dst (photoDirOf (hexEncode (sha256 bs))) = true) := by
    rintro ⟨hf, _⟩
    rw [hforce] at hf
    cases hf
  simp only [processImage, computeHash, hread, hdec, if_neg hskip,
    saveVariants_all_ok dst _ (W, H) hwrite]
  cases hgt : p.config.generateThumbnails <;>
    simp [hgt, hwrite, variantHeight]

/-- Witness for C6, the specification scenario: a 4000×3000 source with
widths 480/800/1200/1920 and thumbnail width 300 produces exactly
480×360, 800×600, 1200×900, 1920×1440 variants and a 300×225 thumbnail,
under the hash-derived names (the empty source hashes to
`e3b0c44298fc…`). -/
theorem claim_C6_witness :
    (0 : Int) < 4000 ∧
    (processImage ⟨⟨[480, 800, 1200, 1920], 80, true, true, 300⟩⟩
      (fun _ => some (4000, 3000)) ⟨"photo.jpg", some []⟩
      ⟨fun _ => false, fun _ => true⟩).writes =
      [⟨"e3b0c44298fc/e3b0c44298fc-480w.webp", 480, 360⟩,
       ⟨"e3b0c44298fc/e3b0c44298fc-800w.webp", 800, 600⟩,
       ⟨"e3b0c44298fc/e3b0c44298fc-1200w.webp", 1200, 900⟩,
       ⟨"e3b0c44298fc/e3b0c44298fc-1920w.webp", 1920, 1440⟩,
       ⟨"thumb-e3b0c44298fc.webp", 300, 225⟩] := by
  refine ⟨by decide, ?_⟩
  rw [claim_C6 ⟨⟨[480, 800, 1200, 1920], 80, true, true, 300⟩⟩
    (fun _ => some (4000, 3000)) ⟨"photo.jpg", some []⟩
    ⟨fun _ => false, fun _ => true⟩ [] 4000 3000
    rfl rfl (by decide) rfl (fun _ => rfl)]
  rw [if_pos rfl]
  simp only [List.map_cons, List.map_nil, List.cons_append, List.nil_append,
    List.cons.injEq, WrittenVariant.mk.injEq, and_true, List.append_nil]
  refine ⟨⟨?_, ?_, ?_⟩, ⟨?_, ?_, ?_⟩, ⟨?_, ?_, ?_⟩, ⟨?_, ?_, ?_⟩,
    ⟨?_, ?_, ?_⟩⟩ <;>
    first
      | decide
      | norm_num [truncQ]

/-! ## Claim C7: unreadable images in the layout algorithms -/

theorem scaleRow_map_filename (s : ℚ) (gap y : Int) :
    ∀ (row : List LayoutItem) (x : Int),
      (scaleRow s gap y row x).map LayoutItem.filename =
        row.map LayoutItem.filename
  | [], _ => rfl
  | item :: rest, x => by
    simp [scaleRow, scaleRow_map_filename s gap y rest]

theorem placeTrailing_map_filename (gap y : Int) :
    ∀ (row : List LayoutItem) (x : Int),
      (placeTrailing gap y row x).map LayoutItem.filename =
        row.map LayoutItem.filename
  | [], _ => rfl
  | item :: rest, x => by
    simp [placeTrailing, placeTrailing_map_filename gap y rest]

/-- One loop step of `JustifiedLayout` appends the path's filename to the
processed items exactly when the image is readable; otherwise the state is
untouched. -/
theorem justifiedStep_filenames (fsys : String → Option (Int × Int))
    (rowHeight gap : Int) (st : JustifiedState) (p : String) :
    (justifiedStep fsys rowHeight gap st p).rows.flatten.map
        LayoutItem.filename ++
      (justifiedStep fsys rowHeight gap st p).currentRow.map
        LayoutItem.filename =
    (st.rows.flatten.map LayoutItem.filename ++
      st.currentRow.map LayoutItem.filename) ++
      (if (fsys p).isSome then [p] else []) := by
  unfold justifiedStep
  cases hf : fsys p with
  | none => simp
  | some wh =>
    obtain ⟨w0, h0⟩ := wh
    dsimp only
    split
    · simp [scaleRow_map_filename]
    · simp

theorem justified_foldl_filenames (fsys : String → Option (Int × Int))
    (rowHeight gap : Int) :
    ∀ (paths : List String) (st : JustifiedState),
      (paths.foldl (justifiedStep fsys rowHeight gap) st).rows.flatten.map
          LayoutItem.filename ++
        (paths.foldl (justifiedStep fsys rowHeight gap) st).currentRow.map
          LayoutItem.filename =
      (st.rows.flatten.map LayoutItem.filename ++
        st.currentRow.map LayoutItem.filename) ++
        paths.filter (fun p => (fsys p).isSome)
  | [], st => by simp
  | p :: rest, st => by
    rw [List.foldl_cons,
      justified_foldl_filenames fsys rowHeight gap rest
        (justifiedStep fsys rowHeight gap st p),
      justifiedStep_filenames, List.filter_cons]
    cases hp : (fsys p).isSome <;> simp [hp]

theorem justifiedItems_filenames (fsys : String → Option (Int × Int))
    (paths : List String) (rowHeight gap : Int) :
    (justifiedItems fsys paths rowHeight gap).map LayoutItem.filename =
      paths.filter (fun p => (fsys p).isSome) := by
  unfold justifiedItems justifiedFinal
  rw [List.map_append, placeTrailing_map_filename]
  simpa using justified_foldl_filenames fsys rowHeight gap paths
    { rows := [], currentRow := [], currentRowWidth := 0, y := 0 }

theorem gridItemsAux_filenames (fsys : String → Option (Int × Int))
    (columns gap colWidth : Int) :
    ∀ (i : Nat) (paths : List String),
      (gridItemsAux fsys columns gap colWidth i paths).map
          LayoutItem.filename =
        paths.filter (fun p => (fsys p).isSome)
  | _, [] => rfl
  | i, p :: rest => by
    unfold gridItemsAux
    cases hf : fsys p with
    | none =>
      simp [hf, gridItemsAux_filenames fsys columns gap colWidth (i + 1) rest]
    | some wh =>
      obtain ⟨w0, h0⟩ := wh
      simp [hf, gridItemsAux_filenames fsys columns gap colWidth (i + 1) rest]

/-- C7 (amended): an unreadable or undecodable image never makes
`JustifiedLayout` or `GridLayout` fail — both always return a non-error
result, silently skipping such images: the produced items are exactly the
readable paths (in order). -/
theorem claim_C7_amended (fsys : String → Option (Int × Int))
    (paths : List String) (rowHeight gap columns : Int) :
    JustifiedLayout fsys paths rowHeight gap =
      .ok (justifiedItems fsys paths rowHeight gap) ∧
    (justifiedItems fsys paths rowHeight gap).map LayoutItem.filename =
      paths.filter (fun p => (fsys p).isSome) ∧
    GridLayout fsys paths columns gap =
      .ok (gridItems fsys paths columns gap) ∧
    (gridItems fsys paths columns gap).map LayoutItem.filename =
      paths.filter (fun p => (fsys p).isSome) :=
  ⟨rfl, justifiedItems_filenames fsys paths rowHeight gap, rfl,
    gridItemsAux_filenames fsys columns gap _ 0 paths⟩

/-- The filesystem of the C7 counterexample: `a.jpg` decodes as a 100×100
image, every other path is unreadable. -/
def cexFsys (p : String) : Option (Int × Int) :=
  if p = "a.jpg" then some (100, 100) else none

/-- Counterexample for C7: with `missing.jpg` unreadable, both layout
computations return success (`.ok`) with the missing image silently dropped
— not an error as the claim asserts. -/
theorem claim_C7_counterexample :
    cexFsys "missing.jpg" = none ∧
    JustifiedLayout cexFsys ["a.jpg", "missing.jpg"] 100 10 =
      .ok [⟨"a.jpg", 0, 0, 100, 100, 0, 0⟩] ∧
    GridLayout cexFsys ["a.jpg", "missing.jpg"] 3 10 =
      .ok [⟨"a.jpg", 0, 0, 393, 393, 1, 1⟩] := by
  refine ⟨by decide, ?_, ?_⟩
  · simp only [JustifiedLayout, Except.ok.injEq]
    norm_num +decide [justifiedItems, justifiedFinal, justifiedStep,
      placeTrailing, truncQ, containerWidth, cexFsys, List.foldl]
  · simp only [GridLayout, Except.ok.injEq]
    norm_num +decide [gridItems, gridItemsAux, truncQ, containerWidth,
      cexFsys]

/-! ## Claim C3: row-fill of the justified layout -/

theorem scaleRow_widths (s : ℚ) (gap y : Int) :
    ∀ (row : List LayoutItem) (x : Int),
      (scaleRow s gap y row x).map LayoutItem.width =
        row.map fun it => truncQ ((it.width : ℚ) * s)
  | [], _ => rfl
  | item :: rest, x => by
    simp [scaleRow, scaleRow_widths s gap y rest]

/-- A width truncated before and after scaling is at most the scaled true
width. -/
theorem trunc_scale_le (w : ℚ) (hw : 0 ≤ w) (s : ℚ) (hs : 0 ≤ s) :
    ((truncQ ((truncQ w : ℚ) * s) : ℚ)) ≤ w * s := by
  have h1 : (0 : ℚ) ≤ (truncQ w : ℚ) * s :=
    mul_nonneg (by exact_mod_cast truncQ_nonneg w hw) hs
  calc ((truncQ ((truncQ w : ℚ) * s) : ℚ)) ≤ (truncQ w : ℚ) * s :=
        truncQ_le _ h1
    _ ≤ w * s := mul_le_mul_of_nonneg_right (truncQ_le w hw) hs

/-- Each of the two truncations loses less than one pixel (the outer one)
resp. less than the scale factor (the inner one, after scaling), so for a
scale factor ≤ 1 the doubly truncated scaled width misses the scaled true
width by less than 2. -/
theorem trunc_scale_gt (w : ℚ) (hw : 0 ≤ w) (s : ℚ) (hs0 : 0 < s)
    (hs1 : s ≤ 1) :
    w * s - 2 < ((truncQ ((truncQ w : ℚ) * s) : ℚ)) := by
  have h1 : (0 : ℚ) ≤ (truncQ w : ℚ) * s :=
    mul_nonneg (by exact_mod_cast truncQ_nonneg w hw) (le_of_lt hs0)
  have ha : (w - 1) * s < (truncQ w : ℚ) * s :=
    mul_lt_mul_of_pos_right (truncQ_gt w hw) hs0
  have hb : (truncQ w : ℚ) * s - 1 < (truncQ ((truncQ w : ℚ) * s) : ℚ) :=
    truncQ_gt _ h1
  nlinarith [ha, hb, hs1]

/-- Upper sum bound for a row of truncated widths scaled by `s ≥ 0` and
truncated again. -/
theorem scaled_sum_le (s : ℚ) (hs : 0 ≤ s) :
    ∀ ws : List ℚ, (∀ w ∈ ws, 0 ≤ w) →
      ((ws.map fun w => truncQ ((truncQ w : ℚ) * s)).sum : ℚ) ≤ s * ws.sum
  | [], _ => by simp
  | w :: rest, hnn => by
    have ih := scaled_sum_le s hs rest
      fun x hx => hnn x (List.mem_cons_of_mem _ hx)
    have h1 := trunc_scale_le w (hnn w (List.mem_cons_self ..)) s hs
    simp only [List.map_cons, List.sum_cons]
    push_cast
    push_cast at ih
    nlinarith [ih, h1]

/-- Non-strict lower sum bound (2 px per item) for a row of truncated widths
scaled by `s ∈ (0, 1]` and truncated again. -/
theorem scaled_sum_ge (s : ℚ) (hs0 : 0 < s) (hs1 : s ≤ 1) :
    ∀ ws : List ℚ, (∀ w ∈ ws, 0 ≤ w) →
      s * ws.sum - 2 * ws.length ≤
        ((ws.map fun w => truncQ ((truncQ w : ℚ) * s)).sum : ℚ)
  | [], _ => by simp
  | w :: rest, hnn => by
    have ih := scaled_sum_ge s hs0 hs1 rest
      fun x hx => hnn x (List.mem_cons_of_mem _ hx)
    have h2 := trunc_scale_gt w (hnn w (List.mem_cons_self ..)) s hs0 hs1
    simp only [List.map_cons, List.sum_cons, List.length_cons]
    push_cast
    push_cast at ih
    nlinarith [ih, h2]

/-- The lower bound is strict for a nonempty row. -/
theorem scaled_sum_gt (s : ℚ) (hs0 : 0 < s) (hs1 : s ≤ 1) (w : ℚ)
    (rest : List ℚ) (hnn : ∀ x ∈ w :: rest, 0 ≤ x) :
    s * (w :: rest).sum - 2 * ((w :: rest).length : ℚ) <
      (((w :: rest).map fun x => truncQ ((truncQ x : ℚ) * s)).sum : ℚ) := by
  have ih := scaled_sum_ge s hs0 hs1 rest
    fun x hx => hnn x (List.mem_cons_of_mem _ hx)
  have h2 := trunc_scale_gt w (hnn w (List.mem_cons_self ..)) s hs0 hs1
  simp only [List.map_cons, List.sum_cons, List.length_cons]
  push_cast
  push_cast at ih
  nlinarith [ih, h2]

/-- The loop invariant of `JustifiedLayout` at gap 0: the current row's item
widths are the truncations of a list of nonnegative true (rational) widths
whose sum is the accumulated row width. -/
def rowInv (st : JustifiedState) : Prop :=
  ∃ ws : List ℚ, st.currentRow.map LayoutItem.width = ws.map truncQ ∧
    st.currentRowWidth = ws.sum ∧ ∀ w ∈ ws, 0 ≤ w

/-- The corrected row-fill property of a completed row at gap 0: its laid
out width is within (2 px per item] below the container width. -/
def rowBound (row : List LayoutItem) : Prop :=
  rowLaidWidth row 0 ≤ containerWidth ∧
    containerWidth - 2 * (row.length : Int) < rowLaidWidth row 0

/-- A row closed by the justified loop at gap 0 (nonempty, accumulated
width at least the container width) satisfies `rowBound`. -/
theorem closed_row_bound (ws : List ℚ) (hne : ws ≠ [])
    (hnn : ∀ w ∈ ws, 0 ≤ w)
    (hcl : (containerWidth : ℚ) ≤ ws.sum) (row : List LayoutItem) (y : Int)
    (hmap : row.map LayoutItem.width = ws.map truncQ) :
    rowBound (scaleRow ((containerWidth : ℚ) / ws.sum) 0 y row 0) := by
  set s : ℚ := (containerWidth : ℚ) / ws.sum with hs
  have hcw : (0 : ℚ) < (containerWidth : ℚ) := by norm_num [containerWidth]
  have hsumpos : (0 : ℚ) < ws.sum := lt_of_lt_of_le hcw hcl
  have hs0 : 0 < s := div_pos hcw hsumpos
  have hs1 : s ≤ 1 := (div_le_one hsumpos).mpr hcl
  have hmul : s * ws.sum = (containerWidth : ℚ) :=
    div_mul_cancel₀ _ (ne_of_gt hsumpos)
  have hwidths : (scaleRow s 0 y row 0).map LayoutItem.width =
      ws.map fun w => truncQ ((truncQ w : ℚ) * s) := by
    rw [scaleRow_widths]
    calc (row.map fun it => truncQ ((it.width : ℚ) * s))
        = (row.map LayoutItem.width).map
            fun (t : Int) => truncQ ((t : ℚ) * s) := by
          rw [List.map_map]; rfl
      _ = (ws.map truncQ).map fun (t : Int) => truncQ ((t : ℚ) * s) := by
          rw [hmap]
      _ = ws.map fun w => truncQ ((truncQ w : ℚ) * s) := by
          rw [List.map_map]; rfl
  have hlen : (scaleRow s 0 y row 0).length = ws.length := by
    have := congrArg List.length hwidths
    simpa using this
  have hub := scaled_sum_le s (le_of_lt hs0) ws hnn
  rw [hmul] at hub
  obtain ⟨w0, rest, rfl⟩ := List.exists_cons_of_ne_nil hne
  have hlb := scaled_sum_gt s hs0 hs1 w0 rest hnn
  rw [hmul] at hlb
  constructor
  · show rowLaidWidth _ 0 ≤ _
    unfold rowLaidWidth
    rw [hwidths]
    have h' : ((w0 :: rest).map fun w => truncQ ((truncQ w : ℚ) * s)).sum ≤
        containerWidth := by exact_mod_cast hub
    omega
  · show _ < rowLaidWidth _ 0
    unfold rowLaidWidth
    rw [hwidths, hlen]
    have h' : containerWidth - 2 * ((w0 :: rest).length : Int) <
        ((w0 :: rest).map fun w => truncQ ((truncQ w : ℚ) * s)).sum := by
      exact_mod_cast hlb
    omega

/-- One step of the justified loop at gap 0 preserves the invariant, and
every row it closes satisfies the row-fill bound. -/
theorem justifiedStep_preserves (fsys : String → Option (Int × Int))
    (rowHeight : Int)
    (hdims : ∀ p w h, fsys p = some (w, h) → 0 ≤ w ∧ 0 ≤ h)
    (hrh : 0 ≤ rowHeight) (st : JustifiedState) (p : String)
    (hinv : rowInv st) (hrows : ∀ row ∈ st.rows, rowBound row) :
    rowInv (justifiedStep fsys rowHeight 0 st p) ∧
      ∀ row ∈ (justifiedStep fsys rowHeight 0 st p).rows, rowBound row := by
  obtain ⟨ws, hmap, hsum, hnn⟩ := hinv
  unfold justifiedStep
  cases hf : fsys p with
  | none => exact ⟨⟨ws, hmap, hsum, hnn⟩, hrows⟩
  | some wh =>
    obtain ⟨w0, h0⟩ := wh
    obtain ⟨hw0, hh0⟩ := hdims p w0 h0 hf
    dsimp only
    have hwqnn : (0 : ℚ) ≤ (rowHeight : ℚ) * ((w0 : ℚ) / (h0 : ℚ)) :=
      mul_nonneg (by exact_mod_cast hrh)
        (div_nonneg (by exact_mod_cast hw0) (by exact_mod_cast hh0))
    have hnn' : ∀ w ∈ ws ++ [(rowHeight : ℚ) * ((w0 : ℚ) / (h0 : ℚ))],
        0 ≤ w := by
      intro w hw
      rcases List.mem_append.mp hw with h | h
      · exact hnn w h
      · rw [List.mem_singleton.mp h]
        exact hwqnn
    have hmap' : (st.currentRow ++
        [({ filename := p, x := 0, y := 0,
            width := truncQ ((rowHeight : ℚ) * ((w0 : ℚ) / (h0 : ℚ))),
            height := rowHeight, colSpan := 0, rowSpan := 0 } : LayoutItem)]).map
          LayoutItem.width =
        (ws ++ [(rowHeight : ℚ) * ((w0 : ℚ) / (h0 : ℚ))]).map truncQ := by
      simp [hmap]
    have hsum' : st.currentRowWidth +
        (rowHeight : ℚ) * ((w0 : ℚ) / (h0 : ℚ)) + ((0 : Int) : ℚ) =
        (ws ++ [(rowHeight : ℚ) * ((w0 : ℚ) / (h0 : ℚ))]).sum := by
      push_cast
      simp [hsum]
    split
    · next hcl =>
      constructor
      · exact ⟨[], by simp, by simp, by simp⟩
      · intro row hrow
        rcases List.mem_append.mp hrow with h | h
        · exact hrows row h
        · rw [List.mem_singleton.mp h]
          rw [hsum'] at hcl
          have hbnd := closed_row_bound
            (ws ++ [(rowHeight : ℚ) * ((w0 : ℚ) / (h0 : ℚ))]) (by simp)
            hnn' hcl
            (st.currentRow ++
              [({ filename := p, x := 0, y := 0,
                  width := truncQ ((rowHeight : ℚ) * ((w0 : ℚ) / (h0 : ℚ))),
                  height := rowHeight, colSpan := 0,
                  rowSpan := 0 } : LayoutItem)])
            st.y hmap'
          rw [hsum', Int.cast_zero, sub_zero]
          exact hbnd
    · next hcl =>
      refine ⟨⟨ws ++ [(rowHeight : ℚ) * ((w0 : ℚ) / (h0 : ℚ))],
        hmap', hsum', hnn'⟩, hrows⟩

/-- Folding the justified loop at gap 0 from an invariant state keeps every
completed row within the corrected bound. -/
theorem justified_rows_bound (fsys : String → Option (Int × Int))
    (rowHeight : Int)
    (hdims : ∀ p w h, fsys p = some (w, h) → 0 ≤ w ∧ 0 ≤ h)
    (hrh : 0 ≤ rowHeight) :
    ∀ (paths : List String) (st : JustifiedState),
      rowInv st → (∀ row ∈ st.rows, rowBound row) →
      ∀ row ∈ (paths.foldl (justifiedStep fsys rowHeight 0) st).rows,
        rowBound row
  | [], st, _, hrows => by simpa using hrows
  | p :: rest, st, hinv, hrows => by
    rw [List.foldl_cons]
    obtain ⟨hinv', hrows'⟩ :=
      justifiedStep_preserves fsys rowHeight hdims hrh st p hinv hrows
    exact justified_rows_bound fsys rowHeight hdims hrh rest _ hinv' hrows'

/-- C3 (amended): at gap 0, for nonnegative image dimensions and target row
height, every completed (non-trailing) row of the justified layout fills the
container to within strictly less than 2 px per row item below 1200 — but
not within the claimed ±1 px. -/
theorem claim_C3_amended (fsys : String → Option (Int × Int))
    (paths : List String) (rowHeight : Int)
    (hdims : ∀ p w h, fsys p = some (w, h) → 0 ≤ w ∧ 0 ≤ h)
    (hrh : 0 ≤ rowHeight) :
    ∀ row ∈ (justifiedFinal fsys paths rowHeight 0).rows,
      rowLaidWidth row 0 ≤ containerWidth ∧
        containerWidth - 2 * (row.length : Int) < rowLaidWidth row 0 := by
  intro row hrow
  exact justified_rows_bound fsys rowHeight hdims hrh paths
    { rows := [], currentRow := [], currentRowWidth := 0, y := 0 }
    ⟨[], rfl, by simp, by simp⟩ (by simp) row hrow

/-- Witness for C3 (amended): two 600×100 images at row height 100 close a
row that fills the container exactly (1200 = 600 + 600). -/
theorem claim_C3_amended_witness :
    ((∀ (p : String) (w h : Int),
        (fun _ => some ((600 : Int), (100 : Int))) p = some (w, h) →
          0 ≤ w ∧ 0 ≤ h) ∧ (0 : Int) ≤ 100) ∧
    (rowLaidWidth [⟨"a", 0, 0, 600, 100, 0, 0⟩, ⟨"b", 600, 0, 600, 100, 0, 0⟩]
        0 ≤ containerWidth ∧
      containerWidth -
          2 * (([⟨"a", 0, 0, 600, 100, 0, 0⟩,
                 ⟨"b", 600, 0, 600, 100, 0, 0⟩] :
            List LayoutItem).length : Int) <
        rowLaidWidth [⟨"a", 0, 0, 600, 100, 0, 0⟩,
          ⟨"b", 600, 0, 600, 100, 0, 0⟩] 0) := by
  have hd : ∀ (p : String) (w h : Int),
      (fun _ => some ((600 : Int), (100 : Int))) p = some (w, h) →
        0 ≤ w ∧ 0 ≤ h := by
    intro p w h hp
    simp only [Option.some.injEq, Prod.mk.injEq] at hp
    omega
  refine ⟨⟨hd, by decide⟩, ?_⟩
  refine claim_C3_amended (fun _ => some (600, 100)) ["a", "b"] 100 hd
    (by decide) [⟨"a", 0, 0, 600, 100, 0, 0⟩, ⟨"b", 600, 0, 600, 100, 0, 0⟩] ?_
  norm_num +decide [justifiedFinal, justifiedStep, scaleRow, truncQ,
    containerWidth, List.foldl]

/-- Counterexample for C3: two 1207×200 images at row height 100, gap 0,
close a row whose laid-out width is 599 + 599 = 1198 — two pixels short of
the 1200 container, violating the claimed ±1 px bound. -/
theorem claim_C3_counterexample :
    (justifiedFinal (fun _ => some (1207, 200)) ["a", "b"] 100 0).rows =
      [[⟨"a", 0, 0, 599, 99, 0, 0⟩, ⟨"b", 599, 0, 599, 99, 0, 0⟩]] ∧
    rowLaidWidth [⟨"a", 0, 0, 599, 99, 0, 0⟩, ⟨"b", 599, 0, 599, 99, 0, 0⟩]
        0 = 1198 ∧
    ¬(containerWidth - 1 ≤
        rowLaidWidth [⟨"a", 0, 0, 599, 99, 0, 0⟩,
          ⟨"b", 599, 0, 599, 99, 0, 0⟩] 0 ∧
      rowLaidWidth [⟨"a", 0, 0, 599, 99, 0, 0⟩,
          ⟨"b", 599, 0, 599, 99, 0, 0⟩] 0 ≤ containerWidth + 1) := by
  refine ⟨?_, by decide, by decide⟩
  norm_num +decide [justifiedFinal, justifiedStep, scaleRow, truncQ,
    containerWidth, List.foldl]

end PortfolioBuilder
